import Mathlib

/-!
Shallow embedding of `app.py` (WordPulse): the JSON-document persistence
layer, the tokenizer, the frequency ranking and the admin gate, together
with theorems checking the specification's claims against them.

Conventions: machine timestamps are `Nat` parameters threaded explicitly
(`time.time()` becomes a `now` argument); the backing file is a `Store`
value (absent / unparseable / parsed); Python `None` is `Option.none`.
-/

namespace WordPulse

/-- Python whitespace (`str.isspace()` / regex `\s` over `str`), by code point. -/
def pyIsSpace (c : Char) : Bool :=
  let n := c.toNat
  n == 32 || n == 9 || n == 10 || n == 13 || n == 11 || n == 12 ||
  (28 ≤ n && n ≤ 31) || n == 0x85 || n == 0xa0 || n == 0x1680 ||
  (0x2000 ≤ n && n ≤ 0x200a) || n == 0x2028 || n == 0x2029 || n == 0x202f ||
  n == 0x205f || n == 0x3000

/-- List-level form of Python `str.strip()`: drop `pyIsSpace` characters
from both ends. -/
def stripL (l : List Char) : List Char :=
  ((l.dropWhile pyIsSpace).reverse.dropWhile pyIsSpace).reverse

/-- Python `str.strip()`. -/
def pyStrip (s : String) : String := String.mk (stripL s.data)

/-- Python `x or d` for an optional string `x`: `None` and `""` are falsy. -/
def pyOrS (x : Option String) (d : String) : String :=
  match x with
  | none => d
  | some s => if s = "" then d else s

/-- One stored answer: `{"text": ..., "ts": ...}`. -/
structure Entry where
  text : String
  ts : Nat
deriving DecidableEq, Repr

/-- The parsed JSON document as it may sit on disk: each key may be absent
(`none`), and a present `question` may additionally be JSON `null`
(`some none`). -/
structure RawDoc where
  question : Option (Option String)
  entries : Option (List Entry)
  public_show_cloud : Option Bool
  created_at : Option Nat
  updated_at : Option Nat
deriving DecidableEq, Repr

/-- The backing file `data_words.json`: absent, unreadable/unparseable
(bad JSON, or not an object), or a parsed document. -/
inductive Store where
  | missing : Store
  | corrupt : Store
  | valid : RawDoc → Store
deriving DecidableEq, Repr

/-- The in-memory dict right after `_read_data`'s `setdefault` calls:
`question` may still be JSON `null` (`none`). -/
structure Doc where
  question : Option String
  entries : List Entry
  public_show_cloud : Bool
  created_at : Option Nat
  updated_at : Option Nat
deriving DecidableEq, Repr

/-- `DEFAULT_QUESTION` from app.py. -/
def DEFAULT_QUESTION : String :=
  "Digite uma palavra que represente sua percepção sobre o tema."

/-- `_empty_data()` from app.py. -/
def _empty_data (now : Nat) : Doc :=
  { question := some DEFAULT_QUESTION
    entries := []
    public_show_cloud := false
    created_at := some now
    updated_at := some now }

/-- `_read_data()` from app.py: a missing file or any exception while reading
or parsing falls back to `_empty_data()`; otherwise `setdefault` fills the
three content keys with their defaults. -/
def _read_data (s : Store) (now : Nat) : Doc :=
  match s with
  | .missing => _empty_data now
  | .corrupt => _empty_data now
  | .valid d =>
    { question := d.question.getD (some DEFAULT_QUESTION)
      entries := d.entries.getD []
      public_show_cloud := d.public_show_cloud.getD false
      created_at := d.created_at
      updated_at := d.updated_at }

/-- `_write_data(data)` from app.py: stamps `updated_at` and serialises
every key of the dict back into the file. -/
def _write_data (d : Doc) (now : Nat) : Store :=
  .valid
    { question := some d.question
      entries := some d.entries
      public_show_cloud := some d.public_show_cloud
      created_at := d.created_at
      updated_at := some now }

/-- `load_entries()` from app.py (`load_data().get("entries", []) or []`). -/
def load_entries (s : Store) (now : Nat) : List Entry :=
  (_read_data s now).entries

/-- `load_question()` from app.py:
`(q or DEFAULT_QUESTION).strip() or DEFAULT_QUESTION`. -/
def load_question (s : Store) (now : Nat) : String :=
  let q := (_read_data s now).question
  let q1 := pyOrS q DEFAULT_QUESTION
  let q2 := pyStrip q1
  if q2 = "" then DEFAULT_QUESTION else q2

/-- `load_public_show_cloud()` from app.py. -/
def load_public_show_cloud (s : Store) (now : Nat) : Bool :=
  (_read_data s now).public_show_cloud

/-- `append_entry(text)` from app.py. -/
def append_entry (s : Store) (text : String) (now : Nat) : Store :=
  let d := _read_data s now
  _write_data { d with entries := d.entries ++ [{ text := text, ts := now }] } now

/-- `clear_all_entries()` from app.py. -/
def clear_all_entries (s : Store) (now : Nat) : Store :=
  let d := _read_data s now
  _write_data { d with entries := [] } now

/-- `set_question(new_q)` from app.py: stores
`(new_q or DEFAULT_QUESTION).strip() or DEFAULT_QUESTION`. -/
def set_question (s : Store) (new_q : Option String) (now : Nat) : Store :=
  let d := _read_data s now
  let t := pyStrip (pyOrS new_q DEFAULT_QUESTION)
  _write_data { d with question := some (if t = "" then DEFAULT_QUESTION else t) } now

/-- N successive `append_entry` calls, each with its own text and timestamp. -/
def appendAll (s : Store) (l : List (String × Nat)) : Store :=
  l.foldl (fun st p => append_entry st p.1 p.2) s

/-- Python `str.isascii()`. -/
def isAsciiStr (s : String) : Bool := s.data.all (fun c => c.toNat ≤ 127)

/-- `hmac.compare_digest` on two `str` arguments: constant-time equality,
but it raises `TypeError` (modelled as `none`) whenever either argument
contains a non-ASCII character — even when the two strings are equal. -/
def compare_digest (a b : String) : Option Bool :=
  if isAsciiStr a && isAsciiStr b then some (a == b) else none

/-- `check_admin(user, pwd)` from app.py, with Python's short-circuit `and`:
the password comparison runs only if the username comparison returns True,
so a username mismatch yields False even when the password comparison would
raise; `none` models an uncaught `TypeError`, and `x or ""` turns an absent
field into the empty string. -/
def check_admin (ADMIN_USER ADMIN_PASS : String) (user pwd : Option String) : Option Bool :=
  match compare_digest (user.getD "") ADMIN_USER with
  | none => none
  | some b => if b then compare_digest (pwd.getD "") ADMIN_PASS else some false

/-- The sidebar's admin-state logic (app.py lines 305-326): with an empty
`ADMIN_PASS` the login form is never rendered and `is_admin` is forced to
`false`; otherwise a login attempt is checked with `check_admin` (a raised
`TypeError` aborts the script run, leaving the flag untouched — `none`),
and the logout button clears the flag. -/
def sidebar_is_admin (ADMIN_USER ADMIN_PASS : String) (prev : Bool)
    (logout_clicked : Bool) (attempt : Option (Option String × Option String)) : Option Bool :=
  if ADMIN_PASS = "" then some false
  else if prev then some (!logout_clicked)
  else
    match attempt with
    | none => some false
    | some (u, p) => check_admin ADMIN_USER ADMIN_PASS u p

/-- `on_answer_change()` from app.py: strip the submitted text, drop blank
submissions, truncate to 200 characters, append. -/
def on_answer_change (s : Store) (raw : Option String) (now : Nat) : Store :=
  let r := pyStrip (pyOrS raw "")
  if r = "" then s
  else append_entry s (String.mk (r.data.take 200)) now

/-! ### Helper lemmas about the store -/

theorem load_entries_now_irrel (s : Store) (n m : Nat) :
    load_entries s n = load_entries s m := by
  cases s <;> rfl

theorem load_entries_append (s : Store) (t : String) (ts n m : Nat) :
    load_entries (append_entry s t ts) n
      = load_entries s m ++ [{ text := t, ts := ts }] := by
  cases s <;> rfl

/-! ### Claims C2, C3, C5 -/

/-- C2: `append_entry` is monotonic: after any sequence of successive
appends (sequential, as modelled), reading the entries yields the initial
entries followed by the new ones in submission order, each carrying its
submitted text, so the length grows by exactly the number of appends. -/
theorem append_entry_monotonic (s : Store) (l : List (String × Nat)) (n : Nat) :
    load_entries (appendAll s l) n
      = load_entries s n ++ l.map (fun p => { text := p.1, ts := p.2 }) := by
  induction l generalizing s with
  | nil => simp [appendAll]
  | cons p ps ih =>
    have h1 : appendAll s (p :: ps) = appendAll (append_entry s p.1 p.2) ps := rfl
    rw [h1, ih, load_entries_append s p.1 p.2 n n]
    simp

/-- C3: `_read_data` never fails: on a missing file or unreadable/corrupt
contents it returns the freshly initialised default document (default
question, no entries, `public_show_cloud` false); on a parsed document it
returns that document with each missing field filled with its default. -/
theorem read_data_total (now : Nat) :
    _read_data Store.missing now = _empty_data now ∧
    _read_data Store.corrupt now = _empty_data now ∧
    ((_empty_data now).question = some DEFAULT_QUESTION ∧
      (_empty_data now).entries = [] ∧
      (_empty_data now).public_show_cloud = false) ∧
    (∀ d : RawDoc,
      (_read_data (Store.valid d) now).question = d.question.getD (some DEFAULT_QUESTION) ∧
      (_read_data (Store.valid d) now).entries = d.entries.getD [] ∧
      (_read_data (Store.valid d) now).public_show_cloud = d.public_show_cloud.getD false) := by
  exact ⟨rfl, rfl, ⟨rfl, rfl, rfl⟩, fun d => ⟨rfl, rfl, rfl⟩⟩

/-- C5: `clear_all_entries` followed by a read yields no entries, while the
prompt and the public visibility flag are unchanged. -/
theorem clear_all_entries_frame (s : Store) (n m : Nat) :
    load_entries (clear_all_entries s n) m = [] ∧
    load_question (clear_all_entries s n) m = load_question s m ∧
    load_public_show_cloud (clear_all_entries s n) m = load_public_show_cloud s m := by
  cases s <;> exact ⟨rfl, rfl, rfl⟩

/-! ### Claim C1 -/

theorem compare_digest_ascii {a b : String} (ha : isAsciiStr a = true)
    (hb : isAsciiStr b = true) : compare_digest a b = some (a == b) := by
  unfold compare_digest
  rw [ha, hb]
  rfl

theorem compare_digest_typeerror {a b : String}
    (h : (isAsciiStr a && isAsciiStr b) = false) : compare_digest a b = none := by
  unfold compare_digest
  rw [h]
  simp

/-- C1 counterexample: with the default configured username `"admin"` and an
empty configured password, `check_admin` itself accepts the submitted pair
`("admin", "")` — it does not return false unconditionally. -/
theorem check_admin_empty_pass_cex :
    check_admin "admin" "" (some "admin") (some "") = some true := by decide

/-- C1 (amended): on ASCII configured and submitted values — the only ones
`hmac.compare_digest` accepts — `check_admin` returns True iff the
submitted user and password both exactly equal the configured values, and
False for any deviation; a username deviation returns False even when the
password comparison would raise (short-circuit `and`); with a non-ASCII
character on the username side, or a matching username and a non-ASCII
character on the password side, it raises TypeError instead of returning.
The unconditional failure under an empty configured password is enforced
by the sidebar gate, which never invokes `check_admin` and forces
`is_admin` to false in that configuration. -/
theorem check_admin_spec (U P : String) (u p : Option String) :
    (isAsciiStr (u.getD "") = true → isAsciiStr U = true →
      isAsciiStr (p.getD "") = true → isAsciiStr P = true →
      ((check_admin U P u p = some true ↔ (u.getD "" = U ∧ p.getD "" = P)) ∧
       ((u.getD "" ≠ U ∨ p.getD "" ≠ P) → check_admin U P u p = some false))) ∧
    (isAsciiStr (u.getD "") = true → isAsciiStr U = true → u.getD "" ≠ U →
      check_admin U P u p = some false) ∧
    ((isAsciiStr (u.getD "") && isAsciiStr U) = false →
      check_admin U P u p = none) ∧
    (isAsciiStr (u.getD "") = true → isAsciiStr U = true → u.getD "" = U →
      (isAsciiStr (p.getD "") && isAsciiStr P) = false →
      check_admin U P u p = none) ∧
    (∀ prev logout att, sidebar_is_admin U "" prev logout att = some false) := by
  refine ⟨?_, ?_, ?_, ?_, ?_⟩
  · intro h1 h2 h3 h4
    have hcu := compare_digest_ascii h1 h2
    have hcp := compare_digest_ascii h3 h4
    by_cases he : u.getD "" = U
    · have hbu : (u.getD "" == U) = true := by simp [he]
      by_cases hq : p.getD "" = P
      · have hbp : (p.getD "" == P) = true := by simp [hq]
        constructor
        · constructor
          · intro _; exact ⟨he, hq⟩
          · intro _
            unfold check_admin
            rw [hcu, hbu]
            show compare_digest (p.getD "") P = some true
            rw [hcp, hbp]
        · rintro (hne | hne)
          · exact absurd he hne
          · exact absurd hq hne
      · have hbp : (p.getD "" == P) = false := by simp [hq]
        have hval : check_admin U P u p = some false := by
          unfold check_admin
          rw [hcu, hbu]
          show compare_digest (p.getD "") P = some false
          rw [hcp, hbp]
        constructor
        · constructor
          · intro hx
            rw [hval] at hx
            simp at hx
          · intro h
            exact absurd h.2 hq
        · intro _; exact hval
    · have hbu : (u.getD "" == U) = false := by simp [he]
      have hval : check_admin U P u p = some false := by
        unfold check_admin
        rw [hcu, hbu]
        rfl
      constructor
      · constructor
        · intro hx
          rw [hval] at hx
          simp at hx
        · intro h
          exact absurd h.1 he
      · intro _; exact hval
  · intro h1 h2 hne
    have hcu := compare_digest_ascii h1 h2
    have hbu : (u.getD "" == U) = false := by simp [hne]
    unfold check_admin
    rw [hcu, hbu]
    rfl
  · intro h
    unfold check_admin
    rw [compare_digest_typeerror h]
  · intro h1 h2 he hp
    have hcu := compare_digest_ascii h1 h2
    have hbu : (u.getD "" == U) = true := by simp [he]
    unfold check_admin
    rw [hcu, hbu]
    show compare_digest (p.getD "") P = none
    exact compare_digest_typeerror hp
  · intro prev logout att
    simp [sidebar_is_admin]

/-- C1 (amended) witness: a concrete exact-match success, a concrete
TypeError on a non-ASCII submitted password, and a concrete instance of the
sidebar forcing `is_admin` off under an empty configured password. -/
theorem check_admin_spec_witness :
    check_admin "admin" "secret" (some "admin") (some "secret") = some true ∧
    check_admin "admin" "secret" (some "admin") (some "coração") = none ∧
    sidebar_is_admin "admin" "" true false none = some false := by
  refine ⟨?_, ?_, ?_⟩
  · exact ((check_admin_spec "admin" "secret" (some "admin") (some "secret")).1
      (by decide) (by decide) (by decide) (by decide)).1.mpr ⟨rfl, rfl⟩
  · exact (check_admin_spec "admin" "secret" (some "admin") (some "coração")).2.2.2.1
      (by decide) (by decide) rfl (by decide)
  · exact (check_admin_spec "admin" "" (some "x") (some "y")).2.2.2.2 true false none

/-! ### `pyStrip` is idempotent -/

theorem dropWhile_head_cases {α : Type} (p : α → Bool) (l : List α) :
    l.dropWhile p = [] ∨ ∃ x xs, l.dropWhile p = x :: xs ∧ p x = false := by
  induction l with
  | nil => exact Or.inl rfl
  | cons c cs ih =>
    cases h : p c with
    | true => simpa [List.dropWhile_cons, h] using ih
    | false => exact Or.inr ⟨c, cs, by simp [List.dropWhile_cons, h], h⟩

theorem dropWhile_eq_self_of_head {α : Type} (p : α → Bool) (l : List α)
    (h : ∀ x, l.head? = some x → p x = false) : l.dropWhile p = l := by
  cases l with
  | nil => rfl
  | cons c cs => simp [List.dropWhile_cons, h c rfl]

theorem getLast?_dropWhile {α : Type} (p : α → Bool) (l : List α)
    (h : l.dropWhile p ≠ []) :
    (l.dropWhile p).getLast? = l.getLast? := by
  conv_rhs => rw [← List.takeWhile_append_dropWhile (p := p) (l := l)]
  rw [List.getLast?_append]
  cases hd : (l.dropWhile p).getLast? with
  | none => exact absurd (List.getLast?_eq_none_iff.mp hd) h
  | some x => rfl

theorem stripL_getLast (l : List Char) (x : Char)
    (h : (stripL l).getLast? = some x) : pyIsSpace x = false := by
  unfold stripL at h
  rw [List.getLast?_reverse] at h
  rcases dropWhile_head_cases pyIsSpace (l.dropWhile pyIsSpace).reverse with
    h0 | ⟨y, ys, hy, hpy⟩
  · rw [h0] at h; simp at h
  · rw [hy] at h
    simp only [List.head?_cons, Option.some.injEq] at h
    rwa [← h]

theorem stripL_head (l : List Char) (x : Char)
    (h : (stripL l).head? = some x) : pyIsSpace x = false := by
  unfold stripL at h
  rw [List.head?_reverse] at h
  by_cases hB : (l.dropWhile pyIsSpace).reverse.dropWhile pyIsSpace = []
  · rw [hB] at h; simp at h
  · rw [getLast?_dropWhile _ _ hB, List.getLast?_reverse] at h
    rcases dropWhile_head_cases pyIsSpace l with h0 | ⟨y, ys, hy, hpy⟩
    · rw [h0] at h; simp at h
    · rw [hy] at h
      simp only [List.head?_cons, Option.some.injEq] at h
      rwa [← h]

theorem stripL_of_trimmed (l : List Char)
    (h1 : ∀ x, l.head? = some x → pyIsSpace x = false)
    (h2 : ∀ x, l.getLast? = some x → pyIsSpace x = false) :
    stripL l = l := by
  unfold stripL
  rw [dropWhile_eq_self_of_head _ _ h1]
  rw [dropWhile_eq_self_of_head _ _
    (fun x hx => h2 x (by rwa [List.head?_reverse] at hx))]
  exact List.reverse_reverse l

theorem stripL_idem (l : List Char) : stripL (stripL l) = stripL l :=
  stripL_of_trimmed (stripL l) (stripL_head l) (stripL_getLast l)

theorem pyStrip_idem (s : String) : pyStrip (pyStrip s) = pyStrip s := by
  unfold pyStrip
  exact congrArg String.mk (stripL_idem s.data)

theorem pyStrip_empty : pyStrip "" = "" := rfl

theorem default_question_facts :
    pyStrip DEFAULT_QUESTION = DEFAULT_QUESTION ∧ DEFAULT_QUESTION ≠ "" := by
  constructor
  · decide
  · decide

theorem load_question_write (d : Doc) (n m : Nat) :
    load_question (_write_data d n) m
      = (if pyStrip (pyOrS d.question DEFAULT_QUESTION) = "" then DEFAULT_QUESTION
         else pyStrip (pyOrS d.question DEFAULT_QUESTION)) := rfl

/-! ### Claim C4 -/

/-- C4: `set_question` round-trips through trimming, with the default as
fallback: for any `X` whose trimmed form is non-blank, setting `X` and
reading the prompt back yields `trim X`; setting a blank/whitespace-only
string, or `None`, yields the configured default question. -/
theorem set_question_roundtrip (s : Store) (n m : Nat) :
    (∀ X : String, pyStrip X ≠ "" →
        load_question (set_question s (some X) n) m = pyStrip X) ∧
    (∀ Y : String, pyStrip Y = "" →
        load_question (set_question s (some Y) n) m = DEFAULT_QUESTION) ∧
    load_question (set_question s none n) m = DEFAULT_QUESTION := by
  have hdq : pyStrip DEFAULT_QUESTION = DEFAULT_QUESTION := default_question_facts.1
  have hdne : DEFAULT_QUESTION ≠ "" := default_question_facts.2
  refine ⟨?_, ?_, ?_⟩
  · intro X hX
    have hXne : X ≠ "" := fun he => hX (by rw [he]; rfl)
    show load_question (_write_data _ n) m = pyStrip X
    rw [load_question_write]
    show (if pyStrip (pyOrS (some (if pyStrip (pyOrS (some X) DEFAULT_QUESTION) = ""
            then DEFAULT_QUESTION
            else pyStrip (pyOrS (some X) DEFAULT_QUESTION))) DEFAULT_QUESTION) = ""
          then DEFAULT_QUESTION else _) = pyStrip X
    rw [show pyOrS (some X) DEFAULT_QUESTION = X from by simp [pyOrS, hXne]]
    rw [if_neg hX]
    rw [show pyOrS (some (pyStrip X)) DEFAULT_QUESTION = pyStrip X from by
      simp [pyOrS, hX]]
    rw [pyStrip_idem, if_neg hX]
  · intro Y hY
    show load_question (_write_data _ n) m = DEFAULT_QUESTION
    rw [load_question_write]
    by_cases hYe : Y = ""
    · subst hYe
      show (if pyStrip (pyOrS (some (if pyStrip (pyOrS (some "") DEFAULT_QUESTION) = ""
              then DEFAULT_QUESTION
              else pyStrip (pyOrS (some "") DEFAULT_QUESTION))) DEFAULT_QUESTION) = ""
            then DEFAULT_QUESTION else _) = DEFAULT_QUESTION
      rw [show pyOrS (some "") DEFAULT_QUESTION = DEFAULT_QUESTION from rfl]
      rw [hdq, if_neg hdne]
      rw [show pyOrS (some DEFAULT_QUESTION) DEFAULT_QUESTION = DEFAULT_QUESTION from by
        simp [pyOrS, hdne]]
      rw [hdq, if_neg hdne]
    · show (if pyStrip (pyOrS (some (if pyStrip (pyOrS (some Y) DEFAULT_QUESTION) = ""
              then DEFAULT_QUESTION
              else pyStrip (pyOrS (some Y) DEFAULT_QUESTION))) DEFAULT_QUESTION) = ""
            then DEFAULT_QUESTION else _) = DEFAULT_QUESTION
      rw [show pyOrS (some Y) DEFAULT_QUESTION = Y from by simp [pyOrS, hYe]]
      rw [if_pos hY]
      rw [show pyOrS (some DEFAULT_QUESTION) DEFAULT_QUESTION = DEFAULT_QUESTION from by
        simp [pyOrS, hdne]]
      rw [hdq, if_neg hdne]
  · show load_question (_write_data _ n) m = DEFAULT_QUESTION
    rw [load_question_write]
    show (if pyStrip (pyOrS (some (if pyStrip (pyOrS none DEFAULT_QUESTION) = ""
            then DEFAULT_QUESTION
            else pyStrip (pyOrS none DEFAULT_QUESTION))) DEFAULT_QUESTION) = ""
          then DEFAULT_QUESTION else _) = DEFAULT_QUESTION
    rw [show pyOrS none DEFAULT_QUESTION = DEFAULT_QUESTION from rfl]
    rw [hdq, if_neg hdne]
    rw [show pyOrS (some DEFAULT_QUESTION) DEFAULT_QUESTION = DEFAULT_QUESTION from by
      simp [pyOrS, hdne]]
    rw [hdq, if_neg hdne]

/-- C4 witness: concrete instances of all three parts of the round-trip. -/
theorem set_question_roundtrip_witness :
    load_question (set_question Store.missing (some "  ola ") 0) 1 = "ola" ∧
    load_question (set_question Store.missing (some "   ") 0) 1 = DEFAULT_QUESTION ∧
    load_question (set_question Store.missing none 0) 1 = DEFAULT_QUESTION := by
  refine ⟨?_, ?_, ?_⟩
  · have h := (set_question_roundtrip Store.missing 0 1).1 "  ola " (by decide)
    exact h.trans (by decide)
  · exact (set_question_roundtrip Store.missing 0 1).2.1 "   " (by decide)
  · exact (set_question_roundtrip Store.missing 0 1).2.2

/-! ### Claim C8 -/

/-- C8: the prompt observed through the read path is never empty: whenever
the persisted `question` field is missing, null, empty or all-whitespace,
`load_question` coerces it to the configured default question. -/
theorem load_question_nonempty (s : Store) (n : Nat) :
    load_question s n ≠ "" ∧
    (∀ d : RawDoc,
      (d.question = none ∨ d.question = some none ∨
        ∃ t, d.question = some (some t) ∧ pyStrip t = "") →
      load_question (Store.valid d) n = DEFAULT_QUESTION) := by
  have hdq : pyStrip DEFAULT_QUESTION = DEFAULT_QUESTION := default_question_facts.1
  have hdne : DEFAULT_QUESTION ≠ "" := default_question_facts.2
  constructor
  · unfold load_question
    by_cases h : pyStrip (pyOrS (_read_data s n).question DEFAULT_QUESTION) = ""
    · simp only [h, if_true, if_pos]
      exact hdne
    · simp [h]
  · intro d hd
    rcases hd with h0 | h0 | ⟨t, h0, ht⟩
    · show (if pyStrip (pyOrS ((_read_data (Store.valid d) n).question)
              DEFAULT_QUESTION) = "" then DEFAULT_QUESTION else _) = DEFAULT_QUESTION
      have hq : (_read_data (Store.valid d) n).question = some DEFAULT_QUESTION := by
        show d.question.getD (some DEFAULT_QUESTION) = some DEFAULT_QUESTION
        rw [h0]; rfl
      rw [hq]
      rw [show pyOrS (some DEFAULT_QUESTION) DEFAULT_QUESTION = DEFAULT_QUESTION from by
        simp [pyOrS, hdne]]
      rw [hdq, if_neg hdne]
    · show (if pyStrip (pyOrS ((_read_data (Store.valid d) n).question)
              DEFAULT_QUESTION) = "" then DEFAULT_QUESTION else _) = DEFAULT_QUESTION
      have hq : (_read_data (Store.valid d) n).question = none := by
        show d.question.getD (some DEFAULT_QUESTION) = none
        rw [h0]; rfl
      rw [hq]
      rw [show pyOrS none DEFAULT_QUESTION = DEFAULT_QUESTION from rfl]
      rw [hdq, if_neg hdne]
    · show (if pyStrip (pyOrS ((_read_data (Store.valid d) n).question)
              DEFAULT_QUESTION) = "" then DEFAULT_QUESTION else _) = DEFAULT_QUESTION
      have hq : (_read_data (Store.valid d) n).question = some t := by
        show d.question.getD (some DEFAULT_QUESTION) = some t
        rw [h0]; rfl
      rw [hq]
      by_cases hte : t = ""
      · rw [show pyOrS (some t) DEFAULT_QUESTION = DEFAULT_QUESTION from by
          simp [pyOrS, hte]]
        rw [hdq, if_neg hdne]
      · rw [show pyOrS (some t) DEFAULT_QUESTION = t from by simp [pyOrS, hte]]
        rw [if_pos ht]

/-- C8 witness: a persisted whitespace-only question is read back as the
default, and the read prompt is non-empty. -/
theorem load_question_nonempty_witness :
    load_question (Store.valid
      { question := some (some "  "), entries := none, public_show_cloud := none,
        created_at := none, updated_at := none }) 0 = DEFAULT_QUESTION ∧
    load_question Store.missing 0 ≠ "" := by
  constructor
  · exact (load_question_nonempty (Store.valid
      { question := some (some "  "), entries := none, public_show_cloud := none,
        created_at := none, updated_at := none }) 0).2 _
      (Or.inr (Or.inr ⟨"  ", rfl, by decide⟩))
  · exact (load_question_nonempty Store.missing 0).1

/-! ### Tokenizer -/

/-- `STOPWORDS_PT` from app.py, in source order (the Python set literal
contains a few repeated words; repetition does not change membership). -/
def STOPWORDS_PT : List String :=
  ["a","à","ao","aos","as","às","com","como","da","das","de","do","dos","e","é","em","entre","para","por","pra",
   "pro","pros","pras","no","nos","na","nas","num","numa","nuns","numas","o","os","um","uma","uns","umas",
   "ou","nem","mas","porque","pois","que","quem","qual","quais","quando","onde","quanto","quantos","quantas",
   "se","sem","sobre","sob","até","apos","após","desde","durante","antes","depois","também","tb","tmb",
   "já","ainda","sempre","nunca","muito","muita","muitos","muitas","mais","menos","bem","mal","lá","la","aqui","ali",
   "cada","todo","toda","todos","todas","algo","alguem","alguém","ninguem","ninguém","mesmo","mesma","mesmos","mesmas",
   "outro","outra","outros","outras",
   "eu","tu","ele","ela","nós","nos","vós","vos","eles","elas","me","te","se","lhe","lhes",
   "minha","meu","meus","minhas","sua","seu","seus","suas","nossa","nosso","nossos","nossas",
   "essa","esse","isso","isto","esta","este","aquelas","aqueles","aquela","aquele",
   "está","estao","estão","tá","ta","tô","to","era","eram","ser","sou","são",
   "vai","vou","foi","foram","tem","têm","ter","tinha","tinham","faz","fazem","feito",
   "sim","não","nao","ok","oks","blz","beleza","tipo","assim","kk","kkk","haha","rs","rss","mds",
   "resposta","respostas","pergunta","perguntas","participante","participantes","tema","assunto",
   "aula","curso","uc","disciplina"]

/-- The one-character-to-one-character pairs of Python `str.lower()`
restricted to the characters `_word_re` can match: ASCII letters, the
Latin-1 uppercase letters (U+00C0–U+00DE except `×`), `Ÿ`, `ẞ`, the Kelvin
sign U+212A (→ `k`) and the Angstrom sign U+212B (→ `å`). `İ` (U+0130) is
not here: it lowercases to a two-character sequence (see `pyLowerCharL`). -/
def lowerPairs : List (Char × Char) :=
  [('A','a'),('B','b'),('C','c'),('D','d'),('E','e'),('F','f'),('G','g'),
   ('H','h'),('I','i'),('J','j'),('K','k'),('L','l'),('M','m'),('N','n'),
   ('O','o'),('P','p'),('Q','q'),('R','r'),('S','s'),('T','t'),('U','u'),
   ('V','v'),('W','w'),('X','x'),('Y','y'),('Z','z'),
   ('À','à'),('Á','á'),('Â','â'),('Ã','ã'),('Ä','ä'),('Å','å'),('Æ','æ'),
   ('Ç','ç'),('È','è'),('É','é'),('Ê','ê'),('Ë','ë'),('Ì','ì'),('Í','í'),
   ('Î','î'),('Ï','ï'),('Ð','ð'),('Ñ','ñ'),('Ò','ò'),('Ó','ó'),('Ô','ô'),
   ('Õ','õ'),('Ö','ö'),('Ø','ø'),('Ù','ù'),('Ú','ú'),('Û','û'),('Ü','ü'),
   ('Ý','ý'),('Þ','þ'),('Ÿ','ÿ'),('ẞ','ß'),(Char.ofNat 0x212a,'k'),
   (Char.ofNat 0x212b,'å')]

/-- Python `str.lower()` of one character, as a character list: `İ`
(U+0130) lowercases to the two-character sequence `i` followed by the
combining dot above U+0307; on the rest of the alphabet `_word_re` can
match, the pair table applies; identity elsewhere. -/
def pyLowerCharL (c : Char) : List Char :=
  if c = Char.ofNat 0x130 then [Char.ofNat 0x69, Char.ofNat 0x307]
  else [(lowerPairs.lookup c).getD c]

/-- Python `str.lower()` on a character list. -/
def pyLowerL (l : List Char) : List Char := l.flatMap pyLowerCharL

/-- Python `str.lower()` on a string. -/
def pyLower (s : String) : String :=
  String.mk (pyLowerL s.data)

/-- `_word_re = re.compile(r"[a-zà-ÿ]+", re.IGNORECASE)`: the characters the
class matches. `à`–`ÿ` is the code-point range U+00E0–U+00FF, which besides
the accented letters also contains the division sign `÷` (U+00F7); with
`IGNORECASE` the uppercase partners U+00C0–U+00DE except `×`, plus `Ÿ`,
and re's case-equivalence fixups `ſ` (U+017F, for `s`), `İ` (U+0130) and
`ı` (U+0131) (for `i`), the Kelvin sign U+212A (for `k`) and the Angstrom
sign U+212B (for `å`) also match (`ß`/`ẞ` do not: `ß` is U+00DF, below the
range). -/
def wordChar (c : Char) : Bool :=
  let n := c.toNat
  (97 ≤ n && n ≤ 122) || (0xe0 ≤ n && n ≤ 0xff) ||
  (65 ≤ n && n ≤ 90) || (0xc0 ≤ n && n ≤ 0xde && n != 0xd7) ||
  n == 0x178 || n == 0x17f || n == 0x130 || n == 0x131 ||
  n == 0x212a || n == 0x212b

/-- `re.sub(r"\s+", " ", texto)`: collapse every maximal whitespace run to a
single space; the boolean records whether we are inside a run. -/
def collapseWsAux : List Char → Bool → List Char
  | [], _ => []
  | c :: cs, inRun =>
    if pyIsSpace c then
      (if inRun then collapseWsAux cs true else ' ' :: collapseWsAux cs true)
    else c :: collapseWsAux cs false

def collapseWs (l : List Char) : List Char := collapseWsAux l false

/-- `_word_re.findall`: the maximal runs of `p`-characters, left to right;
`cur` accumulates the current run in reverse. -/
def findRunsAux (p : Char → Bool) : List Char → List Char → List (List Char)
  | [], cur => if cur = [] then [] else [cur.reverse]
  | c :: cs, cur =>
    if p c then findRunsAux p cs (c :: cur)
    else if cur = [] then findRunsAux p cs []
    else cur.reverse :: findRunsAux p cs []

def findRuns (p : Char → Bool) (l : List Char) : List (List Char) :=
  findRunsAux p l []

/-- `tokenizar(texto)` from app.py: lowercase, strip, collapse whitespace,
extract `_word_re` matches, then lowercase/strip each match again and drop
matches of length < 2 or in the stopword set. -/
def tokenizar (texto : Option String) : List String :=
  let lowered := pyLowerL (pyOrS texto "").data
  let collapsed := collapseWs (stripL lowered)
  (findRuns wordChar collapsed).filterMap (fun run =>
    let tk := String.mk (stripL (pyLowerL run))
    if tk.length < 2 then none
    else if tk ∈ STOPWORDS_PT then none
    else some tk)

/-- Modelled from the spec: a "Latin letter" in the claim's sense — an ASCII
letter or an accented Latin-1 letter, excluding the two characters of the
Latin-1 upper range that are symbols rather than letters: `×` (U+00D7) and
`÷` (U+00F7). -/
def specLetter (c : Char) : Bool :=
  let n := c.toNat
  (97 ≤ n && n ≤ 122) || (65 ≤ n && n ≤ 90) ||
  (0xc0 ≤ n && n ≤ 0xff && n != 0xd7 && n != 0xf7)

/-- ASCII digits and ASCII punctuation/symbol characters. -/
def digitOrPunct (c : Char) : Bool :=
  let n := c.toNat
  (48 ≤ n && n ≤ 57) || (33 ≤ n && n ≤ 47) || (58 ≤ n && n ≤ 64) ||
  (91 ≤ n && n ≤ 96) || (123 ≤ n && n ≤ 126)

/-! ### Tokenizer lemmas -/

theorem mem_of_lookup_eq_some {k v : Char}
    (h : lowerPairs.lookup k = some v) : (k, v) ∈ lowerPairs := by
  rcases List.lookup_eq_some_iff.mp h with ⟨l₁, l₂, heq, _⟩
  rw [heq]
  exact List.mem_append_right _ (List.mem_cons_self _ _)

theorem lowerPairs_word :
    ∀ q ∈ lowerPairs, wordChar q.1 = true → wordChar q.2 = true := by
  decide

theorem lowerPairs_not_punct : ∀ q ∈ lowerPairs, digitOrPunct q.1 = false := by
  decide

theorem lowerPairs_vals_not_dotI : ∀ q ∈ lowerPairs, q.2 ≠ Char.ofNat 0x130 := by
  decide

theorem pyLowerCharL_word {a c : Char} (ha : wordChar a = true)
    (hne : a ≠ Char.ofNat 0x130) (hc : c ∈ pyLowerCharL a) : wordChar c = true := by
  unfold pyLowerCharL at hc
  rw [if_neg hne] at hc
  have hceq : c = (lowerPairs.lookup a).getD a := List.mem_singleton.mp hc
  subst hceq
  cases hl : lowerPairs.lookup a with
  | none => exact ha
  | some v => exact lowerPairs_word (a, v) (mem_of_lookup_eq_some hl) ha

theorem pyLowerCharL_ne_dotI (a c : Char) (hc : c ∈ pyLowerCharL a) :
    c ≠ Char.ofNat 0x130 := by
  unfold pyLowerCharL at hc
  by_cases h : a = Char.ofNat 0x130
  · rw [if_pos h] at hc
    rcases List.mem_cons.mp hc with h1 | h1
    · subst h1; decide
    · have h2 : c = Char.ofNat 0x307 := List.mem_singleton.mp h1
      subst h2; decide
  · rw [if_neg h] at hc
    have hceq : c = (lowerPairs.lookup a).getD a := List.mem_singleton.mp hc
    subst hceq
    cases hl : lowerPairs.lookup a with
    | none => exact h
    | some v => exact lowerPairs_vals_not_dotI (a, v) (mem_of_lookup_eq_some hl)

theorem pyLowerCharL_id_of_digitOrPunct {a : Char} (h : digitOrPunct a = true) :
    pyLowerCharL a = [a] := by
  have hne : a ≠ Char.ofNat 0x130 := by
    intro heq
    rw [heq] at h
    exact absurd h (by decide)
  unfold pyLowerCharL
  rw [if_neg hne]
  cases hl : lowerPairs.lookup a with
  | none => rfl
  | some v =>
    have hm : digitOrPunct a = false :=
      lowerPairs_not_punct (a, v) (mem_of_lookup_eq_some hl)
    rw [h] at hm
    exact Bool.noConfusion hm

theorem not_word_of_digitOrPunct {c : Char} (h : digitOrPunct c = true) :
    wordChar c = false := by
  rw [Bool.eq_false_iff]
  intro hw
  simp only [digitOrPunct, wordChar, Bool.or_eq_true, Bool.and_eq_true,
    decide_eq_true_eq, beq_iff_eq, bne_iff_ne] at h hw
  omega

theorem space_not_word : wordChar ' ' = false := by decide

theorem findRunsAux_chars (p : Char → Bool) (l : List Char) :
    ∀ cur : List Char, (∀ c ∈ cur, p c = true) →
      ∀ r ∈ findRunsAux p l cur, ∀ c ∈ r, p c = true := by
  induction l with
  | nil =>
    intro cur hc r hr c hcr
    unfold findRunsAux at hr
    by_cases h : cur = []
    · simp [h] at hr
    · rw [if_neg h] at hr
      simp only [List.mem_singleton] at hr
      subst hr
      exact hc c (List.mem_reverse.mp hcr)
  | cons a as ih =>
    intro cur hc r hr c hcr
    unfold findRunsAux at hr
    by_cases hp : p a = true
    · rw [if_pos hp] at hr
      refine ih (a :: cur) ?_ r hr c hcr
      intro x hx
      rcases List.mem_cons.mp hx with h1 | h1
      · subst h1; exact hp
      · exact hc x h1
    · rw [if_neg hp] at hr
      by_cases h : cur = []
      · rw [if_pos h] at hr
        exact ih [] (by simp) r hr c hcr
      · rw [if_neg h] at hr
        rcases List.mem_cons.mp hr with h1 | h1
        · subst h1; exact hc c (List.mem_reverse.mp hcr)
        · exact ih [] (by simp) r h1 c hcr

theorem findRunsAux_chars_mem (p : Char → Bool) (l : List Char) :
    ∀ cur : List Char, ∀ r ∈ findRunsAux p l cur, ∀ c ∈ r, c ∈ l ∨ c ∈ cur := by
  induction l with
  | nil =>
    intro cur r hr c hcr
    unfold findRunsAux at hr
    by_cases h : cur = []
    · simp [h] at hr
    · rw [if_neg h] at hr
      simp only [List.mem_singleton] at hr
      subst hr
      exact Or.inr (List.mem_reverse.mp hcr)
  | cons a as ih =>
    intro cur r hr c hcr
    unfold findRunsAux at hr
    by_cases hp : p a = true
    · rw [if_pos hp] at hr
      rcases ih (a :: cur) r hr c hcr with h1 | h1
      · exact Or.inl (List.mem_cons_of_mem a h1)
      · rcases List.mem_cons.mp h1 with h2 | h2
        · exact Or.inl (h2 ▸ List.mem_cons_self a as)
        · exact Or.inr h2
    · rw [if_neg hp] at hr
      by_cases h : cur = []
      · rw [if_pos h] at hr
        rcases ih [] r hr c hcr with h1 | h1
        · exact Or.inl (List.mem_cons_of_mem a h1)
        · simp at h1
      · rw [if_neg h] at hr
        rcases List.mem_cons.mp hr with h1 | h1
        · subst h1
          exact Or.inr (List.mem_reverse.mp hcr)
        · rcases ih [] r h1 c hcr with h2 | h2
          · exact Or.inl (List.mem_cons_of_mem a h2)
          · simp at h2

theorem findRunsAux_nil_of_no_word (p : Char → Bool) (l : List Char)
    (h : ∀ c ∈ l, p c = false) : findRunsAux p l [] = [] := by
  induction l with
  | nil => rfl
  | cons a as ih =>
    unfold findRunsAux
    have hpa : p a = false := h a (List.mem_cons_self a as)
    rw [if_neg (by simp [hpa]), if_pos rfl]
    exact ih (fun c hc => h c (List.mem_cons_of_mem a hc))

theorem collapseWsAux_chars (l : List Char) :
    ∀ (b : Bool) (c : Char), c ∈ collapseWsAux l b → c = ' ' ∨ c ∈ l := by
  induction l with
  | nil => intro b c hc; simp [collapseWsAux] at hc
  | cons a as ih =>
    intro b c hc
    unfold collapseWsAux at hc
    by_cases hp : pyIsSpace a = true
    · rw [if_pos hp] at hc
      cases b with
      | true =>
        simp only [if_true] at hc
        rcases ih true c hc with h1 | h1
        · exact Or.inl h1
        · exact Or.inr (List.mem_cons_of_mem a h1)
      | false =>
        simp only [Bool.false_eq_true, if_false] at hc
        rcases List.mem_cons.mp hc with h1 | h1
        · exact Or.inl h1
        · rcases ih true c h1 with h2 | h2
          · exact Or.inl h2
          · exact Or.inr (List.mem_cons_of_mem a h2)
    · rw [if_neg hp] at hc
      rcases List.mem_cons.mp hc with h1 | h1
      · exact Or.inr (h1 ▸ List.mem_cons_self a as)
      · rcases ih false c h1 with h2 | h2
        · exact Or.inl h2
        · exact Or.inr (List.mem_cons_of_mem a h2)

theorem mem_of_mem_dropWhile {α : Type} (p : α → Bool) (l : List α) (x : α)
    (h : x ∈ l.dropWhile p) : x ∈ l := by
  induction l with
  | nil => exact h
  | cons a as ih =>
    rw [List.dropWhile_cons] at h
    by_cases hp : p a = true
    · rw [if_pos hp] at h
      exact List.mem_cons_of_mem a (ih h)
    · rw [if_neg hp] at h
      exact h

theorem mem_of_mem_stripL (l : List Char) (x : Char) (h : x ∈ stripL l) : x ∈ l := by
  unfold stripL at h
  rw [List.mem_reverse] at h
  have h2 := mem_of_mem_dropWhile _ _ _ h
  rw [List.mem_reverse] at h2
  exact mem_of_mem_dropWhile _ _ _ h2

/-! ### Claim C6 -/

/-- C6: every token produced by `tokenizar` has length at least 2 and is not
a member of the fixed Portuguese stopword set. -/
theorem tokenizar_tokens_valid (texto : Option String) (tk : String)
    (h : tk ∈ tokenizar texto) : 2 ≤ tk.length ∧ tk ∉ STOPWORDS_PT := by
  unfold tokenizar at h
  rw [List.mem_filterMap] at h
  rcases h with ⟨run, _, hrun⟩
  by_cases h1 : (String.mk (stripL (pyLowerL run))).length < 2
  · simp only [h1, if_true, if_pos] at hrun
    exact Option.noConfusion hrun
  · by_cases h2 : String.mk (stripL (pyLowerL run)) ∈ STOPWORDS_PT
    · simp only [h1, h2, if_false, if_true, if_neg, if_pos] at hrun
      exact Option.noConfusion hrun
    · simp only [h1, h2, if_false, if_neg, Option.some.injEq] at hrun
      subst hrun
      exact ⟨by omega, h2⟩

/-- C6 witness: the token `"dia"` of a concrete input satisfies both bounds. -/
theorem tokenizar_tokens_valid_witness :
    "dia" ∈ tokenizar (some "Bom DIA!!") ∧
      (2 ≤ ("dia" : String).length ∧ "dia" ∉ STOPWORDS_PT) := by
  have hmem : "dia" ∈ tokenizar (some "Bom DIA!!") := by decide
  exact ⟨hmem, tokenizar_tokens_valid (some "Bom DIA!!") "dia" hmem⟩

/-! ### Claim C7 -/

/-- C7 counterexample: on input `"a÷b"` the division sign `÷` (U+00F7) — a
symbol, not a Latin letter — does not act as a separator: it is kept inside
the emitted token, because the code-point range `à`–`ÿ` of `_word_re`
contains it. -/
theorem tokenizar_symbol_in_token_cex :
    tokenizar (some "a÷b") = ["a÷b"] ∧ '÷' ∈ ("a÷b" : String).data ∧
      specLetter '÷' = false := by
  exact ⟨by decide, by decide, by decide⟩

/-- C7 (amended): tokens are maximal runs of characters matched by the
regex class `[a-zà-ÿ]` with `IGNORECASE`; every character of every output
token lies in that match set (`wordChar`) — which contains the Latin
letters and their case equivalents (including `ı`/`İ` for `i`, `ſ` for
`s`, and the Kelvin and Angstrom compatibility signs) but also the
division sign `÷` (U+00F7), kept inside tokens rather than treated as a
separator — and every character outside the match set separates; in
particular a string of only ASCII digits and punctuation yields the empty
sequence. -/
theorem tokenizar_class_spec :
    (∀ (texto : Option String) (tk : String), tk ∈ tokenizar texto →
      ∀ c ∈ tk.data, wordChar c = true) ∧
    (∀ s : String, (∀ c ∈ s.data, digitOrPunct c = true) →
      tokenizar (some s) = []) := by
  constructor
  · intro texto tk h c hc
    unfold tokenizar at h
    rw [List.mem_filterMap] at h
    rcases h with ⟨run, hrunmem, hrun⟩
    have hrunchars : ∀ x ∈ run, wordChar x = true :=
      findRunsAux_chars wordChar _ [] (by simp) run hrunmem
    have hrunsrc : ∀ x ∈ run,
        x ∈ collapseWs (stripL (pyLowerL (pyOrS texto "").data)) := by
      intro x hx
      rcases findRunsAux_chars_mem wordChar _ [] run hrunmem x hx with h1 | h1
      · exact h1
      · simp at h1
    have hnoI : ∀ x ∈ run, x ≠ Char.ofNat 0x130 := by
      intro x hx
      rcases collapseWsAux_chars _ false x (hrunsrc x hx) with h1 | h1
      · rw [h1]; decide
      · have h2 : x ∈ pyLowerL (pyOrS texto "").data := mem_of_mem_stripL _ _ h1
        rcases List.mem_flatMap.mp h2 with ⟨a, _, hxa⟩
        exact pyLowerCharL_ne_dotI a x hxa
    have htk : tk = String.mk (stripL (pyLowerL run)) := by
      by_cases h1 : (String.mk (stripL (pyLowerL run))).length < 2
      · simp only [h1, if_true, if_pos] at hrun
        exact Option.noConfusion hrun
      · by_cases h2 : String.mk (stripL (pyLowerL run)) ∈ STOPWORDS_PT
        · simp only [h1, h2, if_false, if_true, if_neg, if_pos] at hrun
          exact Option.noConfusion hrun
        · simp only [h1, h2, if_false, if_neg, Option.some.injEq] at hrun
          exact hrun.symm
    rw [htk] at hc
    have hc2 : c ∈ pyLowerL run := mem_of_mem_stripL _ _ hc
    rcases List.mem_flatMap.mp hc2 with ⟨a, ha, hca⟩
    exact pyLowerCharL_word (hrunchars a ha) (hnoI a ha) hca
  · intro s hs
    have hor : pyOrS (some s) "" = s := by
      by_cases hse : s = ""
      · subst hse; rfl
      · simp [pyOrS, hse]
    have h0 : ∀ c ∈ pyLowerL s.data, wordChar c = false := by
      intro c hc
      rcases List.mem_flatMap.mp hc with ⟨a, ha, hca⟩
      rw [pyLowerCharL_id_of_digitOrPunct (hs a ha)] at hca
      have hceq : c = a := List.mem_singleton.mp hca
      rw [hceq]
      exact not_word_of_digitOrPunct (hs a ha)
    have h1 : ∀ c ∈ stripL (pyLowerL s.data), wordChar c = false :=
      fun c hc => h0 c (mem_of_mem_stripL _ _ hc)
    have h2 : ∀ c ∈ collapseWs (stripL (pyLowerL s.data)), wordChar c = false := by
      intro c hc
      rcases collapseWsAux_chars _ false c hc with h3 | h3
      · rw [h3]; exact space_not_word
      · exact h1 c h3
    show (findRuns wordChar (collapseWs (stripL (pyLowerL (pyOrS (some s) "").data)))).filterMap _ = []
    rw [hor]
    rw [show findRuns wordChar (collapseWs (stripL (pyLowerL s.data))) = []
      from findRunsAux_nil_of_no_word wordChar _ h2]
    rfl

/-- C7 (amended) witness: the dotless `ı` (U+0131) is matched by the class
and kept inside a concrete token whose characters all lie in the match
set, and a concrete digits-and-punctuation string tokenizes to nothing. -/
theorem tokenizar_class_spec_witness :
    "aıb" ∈ tokenizar (some "aıb") ∧
    (∀ c ∈ ("aıb" : String).data, wordChar c = true) ∧
    tokenizar (some "12!?") = [] := by
  refine ⟨by decide, ?_, ?_⟩
  · exact tokenizar_class_spec.1 (some "aıb") "aıb" (by decide)
  · exact tokenizar_class_spec.2 "12!?" (by decide)

/-! ### Aggregation: `Counter` and `most_common` -/

/-- One step of building `collections.Counter(tokens)`: increment the first
matching key, else append a new key with count 1 (a Python dict keeps
first-seen insertion order). -/
def insertCount : List (String × Nat) → String → List (String × Nat)
  | [], tk => [(tk, 1)]
  | q :: rest, tk =>
    if q.1 = tk then (q.1, q.2 + 1) :: rest else q :: insertCount rest tk

/-- `Counter(tokens).items()`, keys in first-seen order. -/
def counterItems (tokens : List String) : List (String × Nat) :=
  tokens.foldl insertCount []

/-- Stable descending insertion by count: the inserted element goes before
the first element whose count is not larger, so earlier (first-seen)
elements stay ahead of later ones with an equal count. -/
def insDesc (x : String × Nat) : List (String × Nat) → List (String × Nat)
  | [] => [x]
  | y :: ys => if y.2 ≤ x.2 then x :: y :: ys else y :: insDesc x ys

/-- A stable sort, descending by count — the order produced by Python
`sorted(items, key=count, reverse=True)` / `heapq.nlargest`, which
`Counter.most_common` uses. -/
def sortDesc : List (String × Nat) → List (String × Nat)
  | [] => []
  | x :: xs => insDesc x (sortDesc xs)

/-- `Counter(tokens).most_common(n)`. -/
def most_common (tokens : List String) (n : Nat) : List (String × Nat) :=
  (sortDesc (counterItems tokens)).take n

/-- The admin view's top-words table: `cont.most_common(15)`. -/
def top_admin (tokens : List String) : List (String × Nat) :=
  most_common tokens 15

theorem mem_insDesc (x a : String × Nat) (l : List (String × Nat))
    (h : a ∈ insDesc x l) : a = x ∨ a ∈ l := by
  induction l with
  | nil =>
    unfold insDesc at h
    exact Or.inl (List.mem_singleton.mp h)
  | cons y ys ih =>
    unfold insDesc at h
    by_cases hy : y.2 ≤ x.2
    · rw [if_pos hy] at h
      rcases List.mem_cons.mp h with h1 | h1
      · exact Or.inl h1
      · exact Or.inr h1
    · rw [if_neg hy] at h
      rcases List.mem_cons.mp h with h1 | h1
      · exact Or.inr (h1 ▸ List.mem_cons_self y ys)
      · rcases ih h1 with h2 | h2
        · exact Or.inl h2
        · exact Or.inr (List.mem_cons_of_mem y h2)

theorem pairwise_insDesc (x : String × Nat) (l : List (String × Nat))
    (h : List.Pairwise (fun a b => b.2 ≤ a.2) l) :
    List.Pairwise (fun a b => b.2 ≤ a.2) (insDesc x l) := by
  induction l with
  | nil => simp [insDesc]
  | cons y ys ih =>
    rw [List.pairwise_cons] at h
    obtain ⟨hy, hys⟩ := h
    unfold insDesc
    by_cases hle : y.2 ≤ x.2
    · rw [if_pos hle, List.pairwise_cons]
      refine ⟨?_, List.pairwise_cons.mpr ⟨hy, hys⟩⟩
      intro b hb
      rcases List.mem_cons.mp hb with h1 | h1
      · rw [h1]; exact hle
      · exact le_trans (hy b h1) hle
    · rw [if_neg hle, List.pairwise_cons]
      refine ⟨?_, ih hys⟩
      intro b hb
      rcases mem_insDesc x b ys hb with h1 | h1
      · rw [h1]; omega
      · exact hy b h1

theorem pairwise_sortDesc (l : List (String × Nat)) :
    List.Pairwise (fun a b => b.2 ≤ a.2) (sortDesc l) := by
  induction l with
  | nil => simp [sortDesc]
  | cons x xs ih => exact pairwise_insDesc x (sortDesc xs) ih

theorem filter_insDesc_eq (x : String × Nat) (l : List (String × Nat)) (c : Nat)
    (hx : x.2 = c) :
    (insDesc x l).filter (fun q => q.2 == c)
      = x :: l.filter (fun q => q.2 == c) := by
  induction l with
  | nil => simp [insDesc, hx]
  | cons y ys ih =>
    unfold insDesc
    by_cases hle : y.2 ≤ x.2
    · rw [if_pos hle]
      simp only [List.filter_cons]
      simp [hx]
    · rw [if_neg hle]
      have hyc : (y.2 == c) = false := by
        rw [beq_eq_false_iff_ne]
        omega
      simp only [List.filter_cons, hyc, Bool.false_eq_true, if_false]
      exact ih

theorem filter_insDesc_ne (x : String × Nat) (l : List (String × Nat)) (c : Nat)
    (hx : x.2 ≠ c) :
    (insDesc x l).filter (fun q => q.2 == c) = l.filter (fun q => q.2 == c) := by
  induction l with
  | nil => simp [insDesc, hx]
  | cons y ys ih =>
    have hxc : (x.2 == c) = false := by
      rw [beq_eq_false_iff_ne]
      exact hx
    unfold insDesc
    by_cases hle : y.2 ≤ x.2
    · rw [if_pos hle]
      simp only [List.filter_cons, hxc, Bool.false_eq_true, if_false]
    · rw [if_neg hle]
      simp only [List.filter_cons, ih]

theorem filter_sortDesc (l : List (String × Nat)) (c : Nat) :
    (sortDesc l).filter (fun q => q.2 == c) = l.filter (fun q => q.2 == c) := by
  induction l with
  | nil => rfl
  | cons x xs ih =>
    show (insDesc x (sortDesc xs)).filter _ = _
    by_cases hx : x.2 = c
    · rw [filter_insDesc_eq x (sortDesc xs) c hx, ih, List.filter_cons]
      simp [hx]
    · rw [filter_insDesc_ne x (sortDesc xs) c hx, ih, List.filter_cons]
      simp [hx]

theorem filter_take_exists {α : Type} (p : α → Bool) (n : Nat) (l : List α) :
    ∃ r, (l.take n).filter p ++ r = l.filter p := by
  induction l generalizing n with
  | nil => exact ⟨[], by simp⟩
  | cons x xs ih =>
    cases n with
    | zero => exact ⟨(x :: xs).filter p, by simp⟩
    | succ m =>
      rcases ih m with ⟨r, hr⟩
      refine ⟨r, ?_⟩
      rw [List.take_succ_cons, List.filter_cons, List.filter_cons]
      by_cases hp : p x = true
      · rw [if_pos hp, if_pos hp, List.cons_append, hr]
      · rw [if_neg hp, if_neg hp, hr]

/-- First-matching-key lookup with default 0: the count a Python dict read
would see. -/
def lookupD : List (String × Nat) → String → Nat
  | [], _ => 0
  | q :: rest, tk => if q.1 = tk then q.2 else lookupD rest tk

theorem lookupD_insertCount_same (acc : List (String × Nat)) (tk : String) :
    lookupD (insertCount acc tk) tk = lookupD acc tk + 1 := by
  induction acc with
  | nil => simp [insertCount, lookupD]
  | cons q rest ih =>
    by_cases h : q.1 = tk
    · show lookupD (if q.1 = tk then (q.1, q.2 + 1) :: rest else q :: insertCount rest tk) tk = _
      rw [if_pos h]
      show (if q.1 = tk then q.2 + 1 else lookupD rest tk) = (if q.1 = tk then q.2 else lookupD rest tk) + 1
      rw [if_pos h, if_pos h]
    · show lookupD (if q.1 = tk then (q.1, q.2 + 1) :: rest else q :: insertCount rest tk) tk = _
      rw [if_neg h]
      show (if q.1 = tk then q.2 else lookupD (insertCount rest tk) tk) = (if q.1 = tk then q.2 else lookupD rest tk) + 1
      rw [if_neg h, if_neg h]
      exact ih

theorem lookupD_insertCount_ne (acc : List (String × Nat)) (tk tk' : String)
    (hne : tk' ≠ tk) :
    lookupD (insertCount acc tk) tk' = lookupD acc tk' := by
  induction acc with
  | nil =>
    show lookupD [(tk, 1)] tk' = lookupD [] tk'
    show (if tk = tk' then 1 else lookupD [] tk') = lookupD [] tk'
    rw [if_neg (fun h => hne h.symm)]
  | cons q rest ih =>
    by_cases h : q.1 = tk
    · show lookupD (if q.1 = tk then (q.1, q.2 + 1) :: rest else q :: insertCount rest tk) tk' = _
      rw [if_pos h]
      show (if q.1 = tk' then q.2 + 1 else lookupD rest tk') = (if q.1 = tk' then q.2 else lookupD rest tk')
      have hq : q.1 ≠ tk' := fun h2 => hne (h2 ▸ h ▸ rfl)
      rw [if_neg hq, if_neg hq]
    · show lookupD (if q.1 = tk then (q.1, q.2 + 1) :: rest else q :: insertCount rest tk) tk' = _
      rw [if_neg h]
      show (if q.1 = tk' then q.2 else lookupD (insertCount rest tk) tk') = (if q.1 = tk' then q.2 else lookupD rest tk')
      by_cases h2 : q.1 = tk'
      · rw [if_pos h2, if_pos h2]
      · rw [if_neg h2, if_neg h2]
        exact ih

theorem lookupD_counter (l : List String) :
    ∀ (acc : List (String × Nat)) (tk : String),
      lookupD (l.foldl insertCount acc) tk = lookupD acc tk + l.count tk := by
  induction l with
  | nil => intro acc tk; simp
  | cons x xs ih =>
    intro acc tk
    rw [List.foldl_cons, ih (insertCount acc x) tk]
    by_cases h : x = tk
    · subst h
      rw [lookupD_insertCount_same]
      have hcnt : (x :: xs).count x = xs.count x + 1 := List.count_cons_self x xs
      omega
    · rw [lookupD_insertCount_ne acc x tk (fun he => h he.symm)]
      have hcnt : (x :: xs).count tk = xs.count tk :=
        List.count_cons_of_ne (fun he => h he.symm) xs
      omega

theorem keys_insertCount (acc : List (String × Nat)) (tk : String) :
    (insertCount acc tk).map Prod.fst = acc.map Prod.fst ∨
    ((insertCount acc tk).map Prod.fst = acc.map Prod.fst ++ [tk] ∧
      tk ∉ acc.map Prod.fst) := by
  induction acc with
  | nil => exact Or.inr ⟨rfl, by simp⟩
  | cons q rest ih =>
    by_cases h : q.1 = tk
    · left
      show (if q.1 = tk then (q.1, q.2 + 1) :: rest else q :: insertCount rest tk).map Prod.fst = _
      rw [if_pos h]
      simp
    · have hstep :
          (insertCount (q :: rest) tk).map Prod.fst
            = q.1 :: (insertCount rest tk).map Prod.fst := by
        show (if q.1 = tk then (q.1, q.2 + 1) :: rest else q :: insertCount rest tk).map Prod.fst = _
        rw [if_neg h]
        simp
      rcases ih with h1 | ⟨h1, h2⟩
      · left
        rw [hstep, h1]
        simp
      · right
        constructor
        · rw [hstep, h1]
          simp
        · simp only [List.map_cons, List.mem_cons]
          rintro (h3 | h3)
          · exact h (h3 ▸ rfl)
          · exact h2 h3

theorem nodup_keys_insertCount (acc : List (String × Nat)) (tk : String)
    (h : (acc.map Prod.fst).Nodup) : ((insertCount acc tk).map Prod.fst).Nodup := by
  rcases keys_insertCount acc tk with h1 | ⟨h1, h2⟩
  · rw [h1]; exact h
  · rw [h1]
    rw [List.nodup_append]
    exact ⟨h, List.nodup_singleton tk, by simpa using h2⟩

theorem nodup_keys_counter (l : List String) :
    ∀ acc : List (String × Nat), (acc.map Prod.fst).Nodup →
      ((l.foldl insertCount acc).map Prod.fst).Nodup := by
  induction l with
  | nil => intro acc h; exact h
  | cons x xs ih => intro acc h; exact ih _ (nodup_keys_insertCount acc x h)

theorem lookupD_of_mem (acc : List (String × Nat)) (q : String × Nat)
    (hnd : (acc.map Prod.fst).Nodup) (hm : q ∈ acc) : lookupD acc q.1 = q.2 := by
  induction acc with
  | nil => cases hm
  | cons a rest ih =>
    rw [List.map_cons, List.nodup_cons] at hnd
    obtain ⟨hna, hnd2⟩ := hnd
    rcases List.mem_cons.mp hm with h1 | h1
    · subst h1
      show (if q.1 = q.1 then q.2 else lookupD rest q.1) = q.2
      rw [if_pos rfl]
    · show (if a.1 = q.1 then a.2 else lookupD rest q.1) = q.2
      by_cases h2 : a.1 = q.1
      · exfalso
        exact hna (h2 ▸ List.mem_map.mpr ⟨q, h1, rfl⟩)
      · rw [if_neg h2]
        exact ih hnd2 h1

/-! ### Claim C9 -/

/-- C9: the top-N ranking over token frequencies returns (token, count)
pairs in descending order of count, with ties between equal counts kept in
first-seen order (the filtered subsequence at any count value is a prefix
of the first-seen-ordered counter items at that count), truncated to at
most n pairs; each counter item carries the token's true frequency. The
admin view uses `top_admin = most_common tokens 15`. -/
theorem most_common_spec (tokens : List String) (n : Nat) :
    (most_common tokens n).length ≤ n ∧
    List.Pairwise (fun a b => b.2 ≤ a.2) (most_common tokens n) ∧
    (∀ c : Nat, ∃ r, (most_common tokens n).filter (fun q => q.2 == c) ++ r
        = (counterItems tokens).filter (fun q => q.2 == c)) ∧
    (∀ q ∈ counterItems tokens, q.2 = tokens.count q.1) ∧
    top_admin tokens = most_common tokens 15 := by
  refine ⟨?_, ?_, ?_, ?_, rfl⟩
  · exact List.length_take_le n _
  · exact List.Pairwise.sublist (List.take_sublist n _) (pairwise_sortDesc _)
  · intro c
    rcases filter_take_exists (fun q => q.2 == c) n (sortDesc (counterItems tokens)) with ⟨r, hr⟩
    refine ⟨r, ?_⟩
    rw [← filter_sortDesc (counterItems tokens) c]
    exact hr
  · intro q hq
    have hnd : ((counterItems tokens).map Prod.fst).Nodup :=
      nodup_keys_counter tokens [] (by simp)
    have h1 := lookupD_of_mem (counterItems tokens) q hnd hq
    have h2 : lookupD (counterItems tokens) q.1 = lookupD [] q.1 + tokens.count q.1 :=
      lookupD_counter tokens [] q.1
    rw [h1, show lookupD [] q.1 = 0 from rfl, Nat.zero_add] at h2
    exact h2

/-- C9 witness: on a concrete token list, the counter item for `"bom"`
carries its true count, as an instance of the ranking theorem. -/
theorem most_common_spec_witness :
    ("bom", 2) ∈ counterItems ["bom", "legal", "bom"] ∧
    (("bom", 2) : String × Nat).2 = (["bom", "legal", "bom"] : List String).count "bom" := by
  refine ⟨by decide, ?_⟩
  exact (most_common_spec ["bom", "legal", "bom"] 15).2.2.2.1 ("bom", 2) (by decide)

/-! ### Claim C10 -/

/-- C10: the public submission path strips and caps input before storing:
a blank or whitespace-only submission appends nothing and leaves the store
unchanged, and otherwise the appended entry text is the stripped raw text
truncated to at most 200 characters. -/
theorem on_answer_change_spec (s : Store) (raw : Option String) (now n : Nat) :
    (pyStrip (pyOrS raw "") = "" → on_answer_change s raw now = s) ∧
    (pyStrip (pyOrS raw "") ≠ "" →
      load_entries (on_answer_change s raw now) n
        = load_entries s n ++
          [{ text := String.mk ((pyStrip (pyOrS raw "")).data.take 200), ts := now }]) ∧
    (String.mk ((pyStrip (pyOrS raw "")).data.take 200)).length ≤ 200 := by
  refine ⟨?_, ?_, ?_⟩
  · intro h
    unfold on_answer_change
    rw [if_pos h]
  · intro h
    unfold on_answer_change
    rw [if_neg h]
    exact load_entries_append s _ now n n
  · show ((pyStrip (pyOrS raw "")).data.take 200).length ≤ 200
    exact List.length_take_le 200 _

/-- C10 witness: a whitespace-only submission leaves the store unchanged;
a padded submission is stored stripped. -/
theorem on_answer_change_spec_witness :
    on_answer_change Store.missing (some "   ") 3 = Store.missing ∧
    load_entries (on_answer_change Store.missing (some " oi ") 3) 0
      = [{ text := "oi", ts := 3 }] := by
  constructor
  · exact (on_answer_change_spec Store.missing (some "   ") 3 0).1 (by decide)
  · have h := (on_answer_change_spec Store.missing (some " oi ") 3 0).2.1 (by decide)
    exact h.trans (by decide)

end WordPulse
